import Mathlib

/-!
# Symbol table of the Dynare preprocessor

A shallow embedding of `parser.src/SymbolTable.cc`:

* `SymbolTable.addSymbol` (lines 13-56) declares a name under a kind,
* `SymbolTable.writeOutput` (lines 58-119) announces names and counts.

Modelling conventions.

* The three `std::map` members are finite maps, embedded as lookup functions
  `key → Option value`; `m[k] = v` is `Map.set`.
* The eight `int` counters are natural numbers. They start at `0` and are only
  ever incremented; signed overflow is undefined behaviour in C++ and needs
  `2^31` symbols of one kind, so the embedding covers the defined range.
* A member function that may throw returns the exception (or the normal
  result) together with the object state at that point.
* The output stream is embedded as the list of lines written so far: every
  statement of `writeOutput` ends with `endl`, and one statement is one line.
* `SymbolTable.hh` and `Interface.hh` are not part of the sources at hand. The
  inline helpers they declare are modelled from the specification (their doc
  comments say so); `interfaces::strvcat` is a parameter.
-/

namespace Dynare

/-- The symbol kinds: the enumeration `Type` switched over by `addSymbol`. -/
inductive SymType where
  | eEndogenous
  | eExogenous
  | eExogenousDet
  | eRecursiveVariable
  | eParameter
  | eModelLocalVariable
  | eModFileLocalVariable
  | eUnknownFunction
  deriving DecidableEq

/-- The pair `symbol_type(type, id)`: a kind together with an ordinal. -/
abbrev symbol_type := SymType × Nat

/-- Modelled from the spec: the class `AlreadyDeclaredException` of the missing
`SymbolTable.hh`, the error `AlreadyDeclared(bool)`. `flag` is the second
constructor argument, the boolean that `addSymbol` passes. -/
structure AlreadyDeclaredException where
  name : String
  flag : Bool
  deriving DecidableEq

/-- Modelled from the spec: the `conflicting_kind` of the error
`AlreadyDeclared` (sections 7 and 8). Section 4.1 names the boolean that the
exception carries `sameKind`; a redeclaration conflicts in kind exactly when it
is not of the same kind, so `conflicting_kind` is the negation of `flag`. -/
def AlreadyDeclaredException.conflicting_kind (e : AlreadyDeclaredException) : Bool :=
  !e.flag

/-- Modelled from the spec: the error `UnknownSymbol` of the missing
`SymbolTable.hh`, raised by the reverse lookups for an id that was never
issued. -/
structure UnknownSymbolIDException where
  id : Nat
  type : SymType
  deriving DecidableEq

/-- A finite map as a lookup function. -/
abbrev Map (κ : Type) (ν : Type) := κ → Option ν

/-- The assignment `m[k] = v` of `std::map`: inserts or overwrites. -/
def Map.set {κ ν : Type} [DecidableEq κ] (m : Map κ ν) (k : κ) (v : ν) : Map κ ν :=
  fun k' => if k' = k then some v else m k'

/-- The data members of `SymbolTable`. -/
structure SymbolTable where
  symbol_table : Map String symbol_type
  name_table : Map symbol_type String
  tex_name_table : Map symbol_type String
  endo_nbr : Nat
  exo_nbr : Nat
  exo_det_nbr : Nat
  parameter_nbr : Nat
  model_local_variable_nbr : Nat
  modfile_local_variable_nbr : Nat
  recur_nbr : Nat
  unknown_function_nbr : Nat

namespace SymbolTable

/-- The constructor `SymbolTable::SymbolTable()`: empty maps, all counters zero. -/
def empty : SymbolTable where
  symbol_table := fun _ => none
  name_table := fun _ => none
  tex_name_table := fun _ => none
  endo_nbr := 0
  exo_nbr := 0
  exo_det_nbr := 0
  parameter_nbr := 0
  model_local_variable_nbr := 0
  modfile_local_variable_nbr := 0
  recur_nbr := 0
  unknown_function_nbr := 0

/-- Modelled from the spec: `exists(name) -> bool` of the missing
`SymbolTable.hh`, a pure query telling whether `name` is declared. -/
def «exists» (t : SymbolTable) (name : String) : Bool :=
  (t.symbol_table name).isSome

/-- Modelled from the spec: `lookup(name) -> Option<SymbolId>` of the missing
`SymbolTable.hh`, the forward mapping `name -> id`. -/
def lookup (t : SymbolTable) (name : String) : Option symbol_type :=
  t.symbol_table name

/-- Modelled from the spec: `name_of(id)` (`getNameByID` of the missing
`SymbolTable.hh`), failing with `UnknownSymbol` when the reverse name map has
no entry for the id. -/
def getNameByID (t : SymbolTable) (type : SymType) (id : Nat) :
    Except UnknownSymbolIDException String :=
  match t.name_table (type, id) with
  | some name => .ok name
  | none => .error ⟨id, type⟩

/-- Modelled from the spec: `display_name_of(id)` (`getTeXNameByID` of the
missing `SymbolTable.hh`), failing with `UnknownSymbol` when the display-name
map has no entry for the id. -/
def getTeXNameByID (t : SymbolTable) (type : SymType) (id : Nat) :
    Except UnknownSymbolIDException String :=
  match t.tex_name_table (type, id) with
  | some name => .ok name
  | none => .error ⟨id, type⟩

/-- Modelled from the spec: `count(kind)`, read from the counter that
`addSymbol` advances for the kind (the counters are data members declared in
the missing `SymbolTable.hh`). -/
def count (t : SymbolTable) : SymType → Nat
  | .eExogenous => t.exo_nbr
  | .eExogenousDet => t.exo_det_nbr
  | .eEndogenous => t.endo_nbr
  | .eParameter => t.parameter_nbr
  | .eRecursiveVariable => t.recur_nbr
  | .eModelLocalVariable => t.model_local_variable_nbr
  | .eModFileLocalVariable => t.modfile_local_variable_nbr
  | .eUnknownFunction => t.unknown_function_nbr

/-- The `switch (type)` of `addSymbol`, lines 24-50: `id = counter++` for the
counter of the kind. Returns the id and the table with the counter advanced. -/
def nextId (t : SymbolTable) : SymType → Nat × SymbolTable
  | .eExogenous => (t.exo_nbr, { t with exo_nbr := t.exo_nbr + 1 })
  | .eExogenousDet => (t.exo_det_nbr, { t with exo_det_nbr := t.exo_det_nbr + 1 })
  | .eEndogenous => (t.endo_nbr, { t with endo_nbr := t.endo_nbr + 1 })
  | .eParameter => (t.parameter_nbr, { t with parameter_nbr := t.parameter_nbr + 1 })
  | .eRecursiveVariable => (t.recur_nbr, { t with recur_nbr := t.recur_nbr + 1 })
  | .eModelLocalVariable =>
      (t.model_local_variable_nbr,
        { t with model_local_variable_nbr := t.model_local_variable_nbr + 1 })
  | .eModFileLocalVariable =>
      (t.modfile_local_variable_nbr,
        { t with modfile_local_variable_nbr := t.modfile_local_variable_nbr + 1 })
  | .eUnknownFunction =>
      (t.unknown_function_nbr, { t with unknown_function_nbr := t.unknown_function_nbr + 1 })

/-- The member function `SymbolTable::addSymbol`, lines 13-56. The first
component is the thrown exception or normal completion, the second the table
afterwards. `exists(name)` holds exactly when `symbol_table` has the key, and
then `symbol_table[name]` reads the stored pair, so lines 16-17 are one match. -/
def addSymbol (t : SymbolTable) (name : String) (type : SymType) (tex_name : String) :
    Except AlreadyDeclaredException Unit × SymbolTable :=
  match t.symbol_table name with
  | some previous =>
      if previous.1 = type then
        (.error ⟨name, true⟩, t)
      else
        (.error ⟨name, false⟩, t)
  | none =>
      let (id, t1) := t.nextId type
      let symbol : symbol_type := (type, id)
      let t2 := { t1 with symbol_table := t1.symbol_table.set name symbol }
      let t3 := { t2 with name_table := t2.name_table.set symbol name }
      let t4 := { t3 with tex_name_table := t3.tex_name_table.set symbol tex_name }
      (.ok (), t4)

/-- The body of the loop of a name block of `writeOutput` (lines 67-68, and
likewise 77-78, 87-88, 97-98, 107-108) for one `id`: two lines, each appending
to the variable through `strvcat`. -/
def writeNamesStep (t : SymbolTable) (strvcat : String → String → String)
    (type : SymType) (var var_tex : String) (output : List String) (id : Nat) :
    Except UnknownSymbolIDException (List String) := do
  let name ← t.getNameByID type id
  let output := output ++ [var ++ " = " ++ strvcat var ("'" ++ name ++ "'") ++ ";"]
  let tex ← t.getTeXNameByID type id
  pure (output ++ [var_tex ++ " = " ++ strvcat var_tex ("'" ++ tex ++ "'") ++ ";"])

/-- One name block of `writeOutput` (lines 61-70, and likewise 71-80, 81-90,
91-100, 101-110): guarded by `nbr > 0`, ordinal 0 is written as the initial
assignment of `var` and `var_tex`, then the loop `for (id = 1; id < nbr; id++)`
runs `writeNamesStep` for the ids `1, ..., nbr - 1`. -/
def writeNames (t : SymbolTable) (strvcat : String → String → String) (nbr : Nat)
    (type : SymType) (var var_tex : String) (output : List String) :
    Except UnknownSymbolIDException (List String) :=
  if 0 < nbr then do
    let name0 ← t.getNameByID type 0
    let output := output ++ [var ++ " = '" ++ name0 ++ "';"]
    let tex0 ← t.getTeXNameByID type 0
    let output := output ++ [var_tex ++ " = '" ++ tex0 ++ "';"]
    (List.range' 1 (nbr - 1)).foldlM (t.writeNamesStep strvcat type var var_tex) output
  else
    pure output

/-- The count lines and the `Sigma_e` line of `writeOutput`, lines 112-118. -/
def countLines (t : SymbolTable) : List String :=
  [ "M_.exo_det_nbr = " ++ toString t.exo_det_nbr ++ ";",
    "M_.exo_nbr = " ++ toString t.exo_nbr ++ ";",
    "M_.endo_nbr = " ++ toString t.endo_nbr ++ ";",
    "M_.recur_nbr = " ++ toString t.recur_nbr ++ ";",
    "M_.param_nbr = " ++ toString t.parameter_nbr ++ ";",
    "M_.Sigma_e = zeros(" ++ toString t.exo_nbr ++ ", " ++ toString t.exo_nbr ++ ");" ]

/-- The member function `SymbolTable::writeOutput`, lines 58-119: the stream
after the call, or the exception of a failed reverse lookup (what had been
written before the exception is then not kept). -/
def writeOutput (t : SymbolTable) (strvcat : String → String → String)
    (output : List String) : Except UnknownSymbolIDException (List String) := do
  let output ← t.writeNames strvcat t.exo_nbr .eExogenous
    "M_.exo_names" "M_.exo_names_tex" output
  let output ← t.writeNames strvcat t.exo_det_nbr .eExogenousDet
    "lgxdet_" "lgxdet_tex_" output
  let output ← t.writeNames strvcat t.endo_nbr .eEndogenous
    "M_.endo_names" "M_.endo_names_tex" output
  let output ← t.writeNames strvcat t.recur_nbr .eRecursiveVariable
    "M_.recur_names" "M_.recur_names_tex" output
  let output ← t.writeNames strvcat t.parameter_nbr .eParameter
    "M_.param_names" "M_.param_names_tex" output
  pure (output ++ t.countLines)

end SymbolTable

/-- One call `addSymbol(name, type, tex_name)`. -/
structure Decl where
  name : String
  type : SymType
  tex_name : String
  deriving DecidableEq

/-- The table after the call `d`, whether it succeeded or threw. -/
def declare (t : SymbolTable) (d : Decl) : SymbolTable :=
  (t.addSymbol d.name d.type d.tex_name).2

/-- The table after a sequence of calls on a freshly constructed table. -/
def run (calls : List Decl) : SymbolTable :=
  calls.foldl declare SymbolTable.empty

/-- The calls of a sequence that complete normally, in call order: a call is
accepted when no earlier call of the sequence has its name. -/
def accepted (calls : List Decl) : List Decl :=
  calls.foldl (fun acc d => if d.name ∈ acc.map Decl.name then acc else acc ++ [d]) []

/-- The declarations of one kind, in declaration order. -/
def ofKind (type : SymType) (ds : List Decl) : List Decl :=
  ds.filter (fun d => d.type = type)

/-- The specification of one name block: for the declaration-order sequence of
a kind, the first symbol is the initial assignment of `var` and `var_tex`, and
every later symbol is appended to both through `strvcat`, in order. -/
def announce (strvcat : String → String → String) (var var_tex : String) :
    List Decl → List String
  | [] => []
  | d :: ds =>
      [var ++ " = '" ++ d.name ++ "';", var_tex ++ " = '" ++ d.tex_name ++ "';"]
        ++ ds.flatMap (fun d' =>
          [var ++ " = " ++ strvcat var ("'" ++ d'.name ++ "'") ++ ";",
            var_tex ++ " = " ++ strvcat var_tex ("'" ++ d'.tex_name ++ "'") ++ ";"])

/-- The variables that `writeOutput` uses for a kind: the name variable, the
display-name variable and the count variable of the five kinds it announces
(lines 61-116); the other three kinds have none. -/
def announced : SymType → Option (String × String × String)
  | .eExogenous => some ("M_.exo_names", "M_.exo_names_tex", "M_.exo_nbr")
  | .eExogenousDet => some ("lgxdet_", "lgxdet_tex_", "M_.exo_det_nbr")
  | .eEndogenous => some ("M_.endo_names", "M_.endo_names_tex", "M_.endo_nbr")
  | .eRecursiveVariable => some ("M_.recur_names", "M_.recur_names_tex", "M_.recur_nbr")
  | .eParameter => some ("M_.param_names", "M_.param_names_tex", "M_.param_nbr")
  | .eModelLocalVariable => none
  | .eModFileLocalVariable => none
  | .eUnknownFunction => none

/-- The line that announces `text` at `ordinal` in the variable `var`: the
initial assignment for ordinal 0, an append through `strvcat` otherwise. -/
def entryLine (strvcat : String → String → String) (var : String) (ordinal : Nat)
    (text : String) : String :=
  if ordinal = 0 then var ++ " = '" ++ text ++ "';"
  else var ++ " = " ++ strvcat var ("'" ++ text ++ "'") ++ ";"

/-- The text `s` occurs in one of the written lines. -/
def mentions (lines : List String) (s : String) : Prop :=
  ∃ l ∈ lines, s.data <:+: l.data

/-- A sample value for the parameter `interfaces::strvcat` (`Interface.hh` is
missing), used to evaluate `writeOutput` on concrete tables. -/
def strvcatSample (a b : String) : String :=
  "strvcat(" ++ a ++ "," ++ b ++ ")"

/-! ## One call of `addSymbol` -/

theorem Map.set_same {κ ν : Type} [DecidableEq κ] (m : Map κ ν) (k : κ) (v : ν) :
    m.set k v k = some v := by
  simp [Map.set]

theorem Map.set_other {κ ν : Type} [DecidableEq κ] (m : Map κ ν) (k k' : κ) (v : ν)
    (h : k' ≠ k) : m.set k v k' = m k' := by
  simp [Map.set, h]

namespace SymbolTable

theorem exists_eq_false_iff (t : SymbolTable) (name : String) :
    t.exists name = false ↔ t.symbol_table name = none := by
  unfold SymbolTable.exists
  cases t.symbol_table name <;> simp

theorem exists_eq_true_iff (t : SymbolTable) (name : String) :
    t.exists name = true ↔ ∃ id, t.symbol_table name = some id := by
  unfold SymbolTable.exists
  cases t.symbol_table name <;> simp

theorem nextId_fst (t : SymbolTable) (type : SymType) : (t.nextId type).1 = t.count type := by
  cases type <;> rfl

theorem nextId_symbol_table (t : SymbolTable) (type : SymType) :
    (t.nextId type).2.symbol_table = t.symbol_table := by
  cases type <;> rfl

theorem nextId_name_table (t : SymbolTable) (type : SymType) :
    (t.nextId type).2.name_table = t.name_table := by
  cases type <;> rfl

theorem nextId_tex_name_table (t : SymbolTable) (type : SymType) :
    (t.nextId type).2.tex_name_table = t.tex_name_table := by
  cases type <;> rfl

theorem nextId_count (t : SymbolTable) (type k : SymType) :
    (t.nextId type).2.count k = if k = type then t.count k + 1 else t.count k := by
  cases type <;> cases k <;> rfl

theorem addSymbol_declared (t : SymbolTable) (name : String) (type : SymType)
    (tex_name : String) (previous : symbol_type) (h : t.symbol_table name = some previous) :
    t.addSymbol name type tex_name = (.error ⟨name, decide (previous.1 = type)⟩, t) := by
  unfold addSymbol
  rw [h]
  by_cases hk : previous.1 = type <;> simp [hk]

theorem addSymbol_fresh_fst (t : SymbolTable) (name : String) (type : SymType)
    (tex_name : String) (h : t.symbol_table name = none) :
    (t.addSymbol name type tex_name).1 = .ok () := by
  unfold addSymbol
  rw [h]

theorem addSymbol_fresh_symbol_table (t : SymbolTable) (name : String) (type : SymType)
    (tex_name : String) (h : t.symbol_table name = none) :
    (t.addSymbol name type tex_name).2.symbol_table
      = t.symbol_table.set name (type, t.count type) := by
  unfold addSymbol
  rw [h]
  simp only [nextId_symbol_table, nextId_fst]

theorem addSymbol_fresh_name_table (t : SymbolTable) (name : String) (type : SymType)
    (tex_name : String) (h : t.symbol_table name = none) :
    (t.addSymbol name type tex_name).2.name_table
      = t.name_table.set (type, t.count type) name := by
  unfold addSymbol
  rw [h]
  simp only [nextId_name_table, nextId_fst]

theorem addSymbol_fresh_tex_name_table (t : SymbolTable) (name : String) (type : SymType)
    (tex_name : String) (h : t.symbol_table name = none) :
    (t.addSymbol name type tex_name).2.tex_name_table
      = t.tex_name_table.set (type, t.count type) tex_name := by
  unfold addSymbol
  rw [h]
  simp only [nextId_tex_name_table, nextId_fst]

theorem addSymbol_fresh_count (t : SymbolTable) (name : String) (type : SymType)
    (tex_name : String) (h : t.symbol_table name = none) (k : SymType) :
    (t.addSymbol name type tex_name).2.count k
      = if k = type then t.count k + 1 else t.count k := by
  unfold addSymbol
  rw [h]
  have := t.nextId_count type k
  cases type <;> cases k <;> rfl

end SymbolTable

/-! ## Tables reached by sequences of calls -/

theorem run_nil : run [] = SymbolTable.empty := rfl

theorem run_concat (calls : List Decl) (d : Decl) :
    run (calls ++ [d]) = declare (run calls) d := by
  simp [run, List.foldl_append]

theorem accepted_concat (calls : List Decl) (d : Decl) :
    accepted (calls ++ [d])
      = if d.name ∈ (accepted calls).map Decl.name then accepted calls
        else accepted calls ++ [d] := by
  simp [accepted, List.foldl_append]

theorem ofKind_concat (type : SymType) (ds : List Decl) (d : Decl) :
    ofKind type (ds ++ [d]) = if d.type = type then ofKind type ds ++ [d] else ofKind type ds := by
  unfold ofKind
  rw [List.filter_append]
  by_cases h : d.type = type <;> simp [List.filter, h]

/-- Every table reached by calls is well formed: the forward and the reverse
name map are inverse to each other, the reverse map holds exactly the ordinals
below the counter of each kind, and the display-name map has the same keys. -/
theorem run_wellFormed (calls : List Decl) :
    (∀ n id, (run calls).symbol_table n = some id ↔ (run calls).name_table id = some n)
      ∧ (∀ k i, (∃ n, (run calls).name_table (k, i) = some n) ↔ i < (run calls).count k)
      ∧ (∀ id, (∃ x, (run calls).tex_name_table id = some x)
          ↔ ∃ n, (run calls).name_table id = some n) := by
  induction calls using List.reverseRecOn with
  | nil =>
      refine ⟨?_, ?_, ?_⟩
      · intro n id
        simp [run_nil, SymbolTable.empty]
      · intro k i
        cases k <;> simp [run_nil, SymbolTable.empty, SymbolTable.count]
      · intro id
        simp [run_nil, SymbolTable.empty]
  | append_singleton calls d ih =>
      obtain ⟨hinv, hbound, htex⟩ := ih
      rw [run_concat]
      unfold declare
      cases hd : (run calls).symbol_table d.name with
      | some previous =>
          rw [SymbolTable.addSymbol_declared _ _ _ _ previous hd]
          exact ⟨hinv, hbound, htex⟩
      | none =>
          have hnew : ∀ n, (run calls).name_table (d.type, (run calls).count d.type) ≠ some n := by
            intro n hn
            have := (hbound d.type ((run calls).count d.type)).1 ⟨n, hn⟩
            omega
          rw [SymbolTable.addSymbol_fresh_symbol_table _ _ _ _ hd,
            SymbolTable.addSymbol_fresh_name_table _ _ _ _ hd,
            SymbolTable.addSymbol_fresh_tex_name_table _ _ _ _ hd]
          refine ⟨?_, ?_, ?_⟩
          · intro n id
            by_cases hn : n = d.name
            · subst hn
              rw [Map.set_same]
              by_cases hid : id = (d.type, (run calls).count d.type)
              · subst hid
                rw [Map.set_same]
                simp
              · rw [Map.set_other _ _ _ _ hid]
                constructor
                · intro h
                  exact absurd (Option.some.inj h).symm hid
                · intro h
                  rw [(hinv _ _).2 h] at hd
                  cases hd
            · rw [Map.set_other _ _ _ _ hn]
              by_cases hid : id = (d.type, (run calls).count d.type)
              · subst hid
                rw [Map.set_same]
                constructor
                · intro h
                  exact absurd ((hinv _ _).1 h) (hnew n)
                · intro h
                  exact absurd (Option.some.inj h).symm hn
              · rw [Map.set_other _ _ _ _ hid]
                exact hinv n id
          · intro k i
            rw [SymbolTable.addSymbol_fresh_count _ _ _ _ hd]
            by_cases hid : (k, i) = (d.type, (run calls).count d.type)
            · rw [hid, Map.set_same]
              have hk : k = d.type := congrArg Prod.fst hid
              have hi : i = (run calls).count d.type := congrArg Prod.snd hid
              subst hk
              simp [hi]
            · rw [Map.set_other _ _ _ _ hid, hbound k i]
              by_cases hk : k = d.type
              · have hi : i ≠ (run calls).count k := fun h => hid (by rw [h, hk])
                rw [if_pos hk]
                omega
              · rw [if_neg hk]
          · intro id
            by_cases hid : id = (d.type, (run calls).count d.type)
            · subst hid
              rw [Map.set_same, Map.set_same]
              simp
            · rw [Map.set_other _ _ _ _ hid, Map.set_other _ _ _ _ hid]
              exact htex id

theorem getElem?_concat_ne {α : Type} (l : List α) (a : α) (i : Nat) (h : i ≠ l.length) :
    (l ++ [a])[i]? = l[i]? := by
  rcases Nat.lt_or_gt_of_ne h with hlt | hgt
  · exact List.getElem?_append_left hlt
  · rw [List.getElem?_eq_none (by simp; omega), List.getElem?_eq_none (by omega)]

/-- The table reached by `calls` lists the accepted calls: per kind, the
counter is the number of accepted declarations, the reverse maps hold the
`i`-th accepted declaration of the kind at ordinal `i`, and the forward map
sends its name to that ordinal; no other name is in the table. -/
theorem run_accepted (calls : List Decl) :
    ((accepted calls).map Decl.name).Nodup
      ∧ (∀ k, (run calls).count k = (ofKind k (accepted calls)).length)
      ∧ (∀ k i, (run calls).name_table (k, i)
          = ((ofKind k (accepted calls))[i]?).map Decl.name)
      ∧ (∀ k i, (run calls).tex_name_table (k, i)
          = ((ofKind k (accepted calls))[i]?).map Decl.tex_name)
      ∧ (∀ k j d, (ofKind k (accepted calls))[j]? = some d
          → (run calls).symbol_table d.name = some (k, j))
      ∧ (∀ n, (run calls).symbol_table n = none ↔ n ∉ (accepted calls).map Decl.name) := by
  induction calls using List.reverseRecOn with
  | nil =>
      refine ⟨?_, ?_, ?_, ?_, ?_, ?_⟩
      · simp [accepted]
      · intro k
        cases k <;> rfl
      · intro k i
        simp [accepted, ofKind, run_nil, SymbolTable.empty]
      · intro k i
        simp [accepted, ofKind, run_nil, SymbolTable.empty]
      · intro k j d h
        simp [accepted, ofKind] at h
      · intro n
        simp [accepted, run_nil, SymbolTable.empty]
  | append_singleton calls d ih =>
      obtain ⟨hnodup, hcount, hname, htex, hfwd, hnone⟩ := ih
      rw [run_concat, accepted_concat]
      unfold declare
      cases hd : (run calls).symbol_table d.name with
      | some previous =>
          have hmem : d.name ∈ (accepted calls).map Decl.name := by
            by_contra hc
            rw [(hnone d.name).2 hc] at hd
            cases hd
          rw [SymbolTable.addSymbol_declared _ _ _ _ previous hd, if_pos hmem]
          exact ⟨hnodup, hcount, hname, htex, hfwd, hnone⟩
      | none =>
          have hmem : d.name ∉ (accepted calls).map Decl.name := (hnone d.name).1 hd
          rw [if_neg hmem]
          refine ⟨?_, ?_, ?_, ?_, ?_, ?_⟩
          · rw [List.map_append, List.nodup_append]
            refine ⟨hnodup, by simp, ?_⟩
            intro n h1 h2
            simp at h2
            exact hmem (h2 ▸ h1)
          · intro k
            rw [SymbolTable.addSymbol_fresh_count _ _ _ _ hd, ofKind_concat]
            by_cases hk : k = d.type
            · rw [if_pos hk, if_pos hk.symm, hcount k]
              simp
            · rw [if_neg hk, if_neg (fun h => hk h.symm), hcount k]
          · intro k i
            rw [SymbolTable.addSymbol_fresh_name_table _ _ _ _ hd, ofKind_concat]
            by_cases hid : (k, i) = (d.type, (run calls).count d.type)
            · have hk : k = d.type := congrArg Prod.fst hid
              have hi : i = (run calls).count d.type := congrArg Prod.snd hid
              rw [hid, Map.set_same, if_pos hk.symm, hi, hcount d.type, ← hk,
                List.getElem?_concat_length]
              rfl
            · rw [Map.set_other _ _ _ _ hid, hname k i]
              by_cases hk : k = d.type
              · have hi : i ≠ (ofKind k (accepted calls)).length := by
                  intro h
                  apply hid
                  rw [h, hk, hcount d.type]
                rw [if_pos hk.symm, getElem?_concat_ne _ _ _ hi]
              · rw [if_neg (fun h => hk h.symm)]
          · intro k i
            rw [SymbolTable.addSymbol_fresh_tex_name_table _ _ _ _ hd, ofKind_concat]
            by_cases hid : (k, i) = (d.type, (run calls).count d.type)
            · have hk : k = d.type := congrArg Prod.fst hid
              have hi : i = (run calls).count d.type := congrArg Prod.snd hid
              rw [hid, Map.set_same, if_pos hk.symm, hi, hcount d.type, ← hk,
                List.getElem?_concat_length]
              rfl
            · rw [Map.set_other _ _ _ _ hid, htex k i]
              by_cases hk : k = d.type
              · have hi : i ≠ (ofKind k (accepted calls)).length := by
                  intro h
                  apply hid
                  rw [h, hk, hcount d.type]
                rw [if_pos hk.symm, getElem?_concat_ne _ _ _ hi]
              · rw [if_neg (fun h => hk h.symm)]
          · intro k j e he
            rw [SymbolTable.addSymbol_fresh_symbol_table _ _ _ _ hd]
            rw [ofKind_concat] at he
            by_cases hk : d.type = k
            · rw [if_pos hk] at he
              by_cases hj : j = (ofKind k (accepted calls)).length
              · rw [hj, List.getElem?_concat_length] at he
                have hed : d = e := Option.some.inj he
                rw [← hed, Map.set_same, hj, ← hk, hcount d.type]
              · rw [getElem?_concat_ne _ _ _ hj] at he
                have hne : e.name ≠ d.name := by
                  intro h
                  apply hmem
                  rw [← h]
                  have hin : e ∈ ofKind k (accepted calls) := List.mem_iff_getElem?.2 ⟨j, he⟩
                  exact List.mem_map_of_mem _ (List.mem_of_mem_filter hin)
                rw [Map.set_other _ _ _ _ hne]
                exact hfwd k j e he
            · rw [if_neg hk] at he
              have hne : e.name ≠ d.name := by
                intro h
                apply hmem
                rw [← h]
                have hin : e ∈ ofKind k (accepted calls) := List.mem_iff_getElem?.2 ⟨j, he⟩
                exact List.mem_map_of_mem _ (List.mem_of_mem_filter hin)
              rw [Map.set_other _ _ _ _ hne]
              exact hfwd k j e he
          · intro n
            rw [SymbolTable.addSymbol_fresh_symbol_table _ _ _ _ hd, List.map_append,
              List.mem_append]
            by_cases hn : n = d.name
            · rw [hn, Map.set_same]
              simp
            · rw [Map.set_other _ _ _ _ hn, hnone n]
              simp [hn]

theorem accepted_of_nodup (ds : List Decl) (h : (ds.map Decl.name).Nodup) :
    accepted ds = ds := by
  induction ds using List.reverseRecOn with
  | nil => rfl
  | append_singleton ds d ih =>
      rw [List.map_append, List.nodup_append] at h
      obtain ⟨h1, _, h3⟩ := h
      have hmem : d.name ∉ ds.map Decl.name := fun hc => h3 hc (by simp)
      rw [accepted_concat, ih h1, if_neg hmem]

theorem filter_getElem?_countP_take {α : Type} (p : α → Bool) (l : List α) :
    ∀ (i : Nat) (d : α), l[i]? = some d → p d = true →
      (l.filter p)[(l.take i).countP p]? = some d := by
  induction l with
  | nil =>
      intro i d h
      simp at h
  | cons a l ih =>
      intro i d h hp
      cases i with
      | zero =>
          simp at h
          subst h
          simp [List.filter, hp]
      | succ i =>
          simp at h
          have := ih i d h hp
          by_cases ha : p a = true
          · simp [List.filter, ha, List.countP_cons, this]
          · simp [List.filter, ha, List.countP_cons, this]

theorem countP_take_lt {α : Type} (p : α → Bool) (l : List α) (i i' : Nat) (d : α)
    (hlt : i < i') (h : l[i]? = some d) (hp : p d = true) :
    (l.take i).countP p < (l.take i').countP p := by
  have h1 : (l.take (i + 1)).countP p = (l.take i).countP p + 1 := by
    rw [List.take_succ, h, List.countP_append]
    simp [List.countP_cons, hp]
  have h2 : l.take (i + 1) = (l.take i').take (i + 1) := by
    rw [List.take_take, Nat.min_eq_left (by omega)]
  have h3 : (l.take (i + 1)).countP p ≤ (l.take i').countP p := by
    rw [h2]
    exact List.Sublist.countP_le p (List.take_sublist _ _)
  omega

/-! ## The writer on reachable tables -/

theorem writeNames_loop (t : SymbolTable) (strvcat : String → String → String)
    (type : SymType) (var var_tex : String) :
    ∀ (rest : List Decl) (s : Nat) (out : List String),
      (∀ j, t.name_table (type, s + j) = (rest[j]?).map Decl.name) →
      (∀ j, t.tex_name_table (type, s + j) = (rest[j]?).map Decl.tex_name) →
      (List.range' s rest.length).foldlM (t.writeNamesStep strvcat type var var_tex) out
        = .ok (out ++ rest.flatMap (fun d' =>
            [var ++ " = " ++ strvcat var ("'" ++ d'.name ++ "'") ++ ";",
              var_tex ++ " = " ++ strvcat var_tex ("'" ++ d'.tex_name ++ "'") ++ ";"])) := by
  intro rest
  induction rest with
  | nil =>
      intro s out _ _
      simp [List.foldlM, pure, Except.pure]
  | cons d rest ih =>
      intro s out hname htex
      have h0 : t.name_table (type, s) = some d.name := by simpa using hname 0
      have h0' : t.tex_name_table (type, s) = some d.tex_name := by simpa using htex 0
      have hstep : t.writeNamesStep strvcat type var var_tex out s
          = .ok (out ++ [var ++ " = " ++ strvcat var ("'" ++ d.name ++ "'") ++ ";"]
              ++ [var_tex ++ " = " ++ strvcat var_tex ("'" ++ d.tex_name ++ "'") ++ ";"]) := by
        simp [SymbolTable.writeNamesStep, SymbolTable.getNameByID, SymbolTable.getTeXNameByID,
          h0, h0', bind, Except.bind, pure, Except.pure]
      rw [List.length_cons, List.range'_succ, List.foldlM_cons, hstep]
      have hn : ∀ j, t.name_table (type, s + 1 + j) = (rest[j]?).map Decl.name := by
        intro j
        have := hname (j + 1)
        rw [List.getElem?_cons_succ] at this
        rw [← this]
        congr 2
        omega
      have ht : ∀ j, t.tex_name_table (type, s + 1 + j) = (rest[j]?).map Decl.tex_name := by
        intro j
        have := htex (j + 1)
        rw [List.getElem?_cons_succ] at this
        rw [← this]
        congr 2
        omega
      simp only [bind, Except.bind]
      rw [ih (s + 1) _ hn ht]
      simp

theorem writeNames_eq (t : SymbolTable) (strvcat : String → String → String)
    (type : SymType) (var var_tex : String) (ds : List Decl) (out : List String)
    (hname : ∀ j, t.name_table (type, j) = (ds[j]?).map Decl.name)
    (htex : ∀ j, t.tex_name_table (type, j) = (ds[j]?).map Decl.tex_name) :
    t.writeNames strvcat ds.length type var var_tex out
      = .ok (out ++ announce strvcat var var_tex ds) := by
  cases ds with
  | nil => simp [SymbolTable.writeNames, announce, pure, Except.pure]
  | cons d rest =>
      have h0 : t.name_table (type, 0) = some d.name := by simpa using hname 0
      have h0' : t.tex_name_table (type, 0) = some d.tex_name := by simpa using htex 0
      have hn : ∀ j, t.name_table (type, 1 + j) = (rest[j]?).map Decl.name := by
        intro j
        have := hname (j + 1)
        rw [List.getElem?_cons_succ] at this
        rw [← this]
        congr 2
        omega
      have ht : ∀ j, t.tex_name_table (type, 1 + j) = (rest[j]?).map Decl.tex_name := by
        intro j
        have := htex (j + 1)
        rw [List.getElem?_cons_succ] at this
        rw [← this]
        congr 2
        omega
      have hloop := writeNames_loop t strvcat type var var_tex rest 1
        (out ++ [var ++ " = '" ++ d.name ++ "';"] ++ [var_tex ++ " = '" ++ d.tex_name ++ "';"])
        hn ht
      simp only [SymbolTable.writeNames, List.length_cons, Nat.zero_lt_succ, if_true,
        SymbolTable.getNameByID, SymbolTable.getTeXNameByID, h0, h0', bind, Except.bind,
        Nat.add_sub_cancel]
      rw [hloop]
      simp [announce]

/-- On a reachable table the writer completes and writes, after what the
stream already holds, the five name blocks of the accepted declarations in
declaration order, then the count lines. -/
theorem writeOutput_run (calls : List Decl) (strvcat : String → String → String)
    (output : List String) :
    (run calls).writeOutput strvcat output
      = .ok (output
          ++ announce strvcat "M_.exo_names" "M_.exo_names_tex"
              (ofKind .eExogenous (accepted calls))
          ++ announce strvcat "lgxdet_" "lgxdet_tex_"
              (ofKind .eExogenousDet (accepted calls))
          ++ announce strvcat "M_.endo_names" "M_.endo_names_tex"
              (ofKind .eEndogenous (accepted calls))
          ++ announce strvcat "M_.recur_names" "M_.recur_names_tex"
              (ofKind .eRecursiveVariable (accepted calls))
          ++ announce strvcat "M_.param_names" "M_.param_names_tex"
              (ofKind .eParameter (accepted calls))
          ++ (run calls).countLines) := by
  obtain ⟨_, hcount, hname, htex, _, _⟩ := run_accepted calls
  have h1 : (run calls).exo_nbr = (ofKind .eExogenous (accepted calls)).length :=
    hcount .eExogenous
  have h2 : (run calls).exo_det_nbr = (ofKind .eExogenousDet (accepted calls)).length :=
    hcount .eExogenousDet
  have h3 : (run calls).endo_nbr = (ofKind .eEndogenous (accepted calls)).length :=
    hcount .eEndogenous
  have h4 : (run calls).recur_nbr = (ofKind .eRecursiveVariable (accepted calls)).length :=
    hcount .eRecursiveVariable
  have h5 : (run calls).parameter_nbr = (ofKind .eParameter (accepted calls)).length :=
    hcount .eParameter
  unfold SymbolTable.writeOutput
  rw [h1, h2, h3, h4, h5]
  simp only [bind, Except.bind, pure, Except.pure,
    writeNames_eq (run calls) strvcat _ _ _ _ _ (hname _) (htex _)]

theorem announce_mem (strvcat : String → String → String) (var var_tex : String)
    (ds : List Decl) (j : Nat) (d : Decl) (h : ds[j]? = some d) :
    entryLine strvcat var j d.name ∈ announce strvcat var var_tex ds
      ∧ entryLine strvcat var_tex j d.tex_name ∈ announce strvcat var var_tex ds := by
  cases ds with
  | nil => simp at h
  | cons d0 rest =>
      cases j with
      | zero =>
          simp at h
          subst h
          simp [announce, entryLine]
      | succ j =>
          rw [List.getElem?_cons_succ] at h
          have hin : d ∈ rest := List.mem_iff_getElem?.2 ⟨j, h⟩
          constructor
          · simp only [announce, entryLine, List.mem_append, List.mem_flatMap]
            right
            exact ⟨d, hin, by simp⟩
          · simp only [announce, entryLine, List.mem_append, List.mem_flatMap]
            right
            exact ⟨d, hin, by simp⟩

theorem announce_length (strvcat : String → String → String) (var var_tex : String)
    (ds : List Decl) : (announce strvcat var var_tex ds).length = 2 * ds.length := by
  cases ds with
  | nil => rfl
  | cons d rest =>
      have h : ∀ l : List Decl, (l.flatMap (fun d' =>
          [var ++ " = " ++ strvcat var ("'" ++ d'.name ++ "'") ++ ";",
            var_tex ++ " = " ++ strvcat var_tex ("'" ++ d'.tex_name ++ "'") ++ ";"])).length
          = 2 * l.length := by
        intro l
        induction l with
        | nil => rfl
        | cons a l ih =>
            rw [List.flatMap_cons, List.length_append, ih]
            simp only [List.length_cons, List.length_nil]
            omega
      simp only [announce, List.length_append, h, List.length_cons, List.length_nil]
      omega

theorem declare_keeps (t : SymbolTable) (d : Decl) (n : String) (id : symbol_type)
    (h : t.symbol_table n = some id) : (declare t d).symbol_table n = some id := by
  unfold declare
  cases hd : t.symbol_table d.name with
  | some previous =>
      rw [SymbolTable.addSymbol_declared _ _ _ _ previous hd]
      exact h
  | none =>
      have hne : n ≠ d.name := by
        intro hn
        rw [hn, hd] at h
        cases h
      rw [SymbolTable.addSymbol_fresh_symbol_table _ _ _ _ hd, Map.set_other _ _ _ _ hne]
      exact h

theorem foldl_declare_keeps (more : List Decl) :
    ∀ (t : SymbolTable) (n : String) (id : symbol_type),
      t.symbol_table n = some id → (more.foldl declare t).symbol_table n = some id := by
  induction more with
  | nil =>
      intro t n id h
      exact h
  | cons d more ih =>
      intro t n id h
      rw [List.foldl_cons]
      exact ih (declare t d) n id (declare_keeps t d n id h)

/-! ## Claims about one call -/

/-- C1: `addSymbol(name, kind, display_name)` throws `AlreadyDeclared` exactly
when `name` is already in the table, under whatever kind, and completes
normally exactly when it is not. -/
theorem C1_addSymbol_fails_iff_declared (t : SymbolTable) (name : String) (type : SymType)
    (tex_name : String) :
    ((∃ flag, (t.addSymbol name type tex_name).1 = .error ⟨name, flag⟩)
        ↔ ∃ kind ordinal, t.lookup name = some (kind, ordinal))
      ∧ ((t.addSymbol name type tex_name).1 = .ok () ↔ t.lookup name = none)
      ∧ (t.exists name = true ↔ ∃ kind ordinal, t.lookup name = some (kind, ordinal)) := by
  unfold SymbolTable.lookup SymbolTable.exists
  cases h : t.symbol_table name with
  | none =>
      rw [SymbolTable.addSymbol_fresh_fst t name type tex_name h]
      simp
  | some previous =>
      rw [SymbolTable.addSymbol_declared t name type tex_name previous h]
      simp
      exact ⟨previous.1, previous.2, rfl⟩

/-- C2: once `name` has been declared with kind `K1`, declaring it again with
kind `K2`, at once or after any further calls, throws `AlreadyDeclared` for
that name with `conflicting_kind = false` when `K2 = K1` and
`conflicting_kind = true` when `K2` differs from `K1`; the boolean passed to the
exception (lines 18 and 20) is the same-kind flag, `true` exactly when
`K2 = K1`. -/
theorem C2_redeclaration_flag (t : SymbolTable) (name : String) (K1 K2 : SymType)
    (tex1 tex2 : String) (more : List Decl) (hfresh : t.exists name = false) :
    ∃ e, ((more.foldl declare (t.addSymbol name K1 tex1).2).addSymbol name K2 tex2).1
          = .error e
      ∧ e.name = name
      ∧ e.flag = decide (K2 = K1)
      ∧ e.conflicting_kind = decide (K2 ≠ K1)
      ∧ (K2 = K1 → e.conflicting_kind = false)
      ∧ (K2 ≠ K1 → e.conflicting_kind = true) := by
  have hnone := (t.exists_eq_false_iff name).1 hfresh
  have hst := t.addSymbol_fresh_symbol_table name K1 tex1 hnone
  have hprev : (t.addSymbol name K1 tex1).2.symbol_table name = some (K1, t.count K1) := by
    rw [hst, Map.set_same]
  have hlater := foldl_declare_keeps more _ name _ hprev
  refine ⟨⟨name, decide (K1 = K2)⟩, ?_, rfl, ?_, ?_, ?_, ?_⟩
  · rw [SymbolTable.addSymbol_declared _ name K2 tex2 _ hlater]
  · by_cases hk : K2 = K1
    · simp [hk]
    · have hk' : ¬ K1 = K2 := fun h => hk h.symm
      simp [hk, hk']
  · by_cases hk : K2 = K1
    · simp [AlreadyDeclaredException.conflicting_kind, hk]
    · have hk' : ¬ K1 = K2 := fun h => hk h.symm
      simp [AlreadyDeclaredException.conflicting_kind, hk, hk']
  · intro hk
    simp [AlreadyDeclaredException.conflicting_kind, hk]
  · intro hk
    have hk' : ¬ K1 = K2 := fun h => hk h.symm
    simp [AlreadyDeclaredException.conflicting_kind, hk']

/-- Witness of C2 on the empty table, with a declaration of `"y"` between the
two declarations of `"x"`: Endogenous then Endogenous gives
`conflicting_kind = false`, Endogenous then Parameter gives
`conflicting_kind = true`. -/
theorem C2_redeclaration_flag_witness :
    SymbolTable.empty.exists "x" = false
      ∧ (∃ e, ((([⟨"y", .eEndogenous, "y"⟩] : List Decl).foldl declare
            (SymbolTable.empty.addSymbol "x" .eEndogenous "x").2).addSymbol "x"
              .eEndogenous "x").1 = .error e
          ∧ e.conflicting_kind = false)
      ∧ (∃ e, ((([⟨"y", .eEndogenous, "y"⟩] : List Decl).foldl declare
            (SymbolTable.empty.addSymbol "x" .eEndogenous "x").2).addSymbol "x"
              .eParameter "x").1 = .error e
          ∧ e.conflicting_kind = true) := by
  refine ⟨rfl, ?_, ?_⟩
  · obtain ⟨e, h1, _, _, _, h5, _⟩ :=
      C2_redeclaration_flag SymbolTable.empty "x" .eEndogenous .eEndogenous "x" "x"
        [⟨"y", .eEndogenous, "y"⟩] rfl
    exact ⟨e, h1, h5 rfl⟩
  · obtain ⟨e, h1, _, _, _, _, h6⟩ :=
      C2_redeclaration_flag SymbolTable.empty "x" .eEndogenous .eParameter "x" "x"
        [⟨"y", .eEndogenous, "y"⟩] rfl
    exact ⟨e, h1, h6 (by decide)⟩

/-- C3: for a name not yet declared, `addSymbol` completes normally, gives the
new symbol the ordinal `count(kind)` of before the call, raises `count(kind)`
by exactly one and leaves the count of every other kind unchanged. -/
theorem C3_addSymbol_next_ordinal (t : SymbolTable) (name : String) (type : SymType)
    (tex_name : String) (hfresh : t.exists name = false) :
    (t.addSymbol name type tex_name).1 = .ok ()
      ∧ (t.addSymbol name type tex_name).2.lookup name = some (type, t.count type)
      ∧ (t.addSymbol name type tex_name).2.count type = t.count type + 1
      ∧ ∀ kind, kind ≠ type → (t.addSymbol name type tex_name).2.count kind = t.count kind := by
  have hnone := (t.exists_eq_false_iff name).1 hfresh
  refine ⟨t.addSymbol_fresh_fst name type tex_name hnone, ?_, ?_, ?_⟩
  · unfold SymbolTable.lookup
    rw [t.addSymbol_fresh_symbol_table name type tex_name hnone, Map.set_same]
  · rw [t.addSymbol_fresh_count name type tex_name hnone, if_pos rfl]
  · intro kind hk
    rw [t.addSymbol_fresh_count name type tex_name hnone, if_neg hk]

/-- Witness of C3: a second endogenous variable, declared after an exogenous
one, gets ordinal 1. -/
theorem C3_addSymbol_next_ordinal_witness :
    (run [⟨"x", .eEndogenous, "x"⟩, ⟨"e", .eExogenous, "e"⟩]).exists "y" = false
      ∧ ((run [⟨"x", .eEndogenous, "x"⟩, ⟨"e", .eExogenous, "e"⟩]).addSymbol "y"
          .eEndogenous "y").2.lookup "y" = some (.eEndogenous, 1) :=
  ⟨rfl, (C3_addSymbol_next_ordinal (run [⟨"x", .eEndogenous, "x"⟩, ⟨"e", .eExogenous, "e"⟩])
    "y" .eEndogenous "y" rfl).2.1⟩

/-- C4: after a successful `addSymbol(name, kind, display_name)` the name looks
up to an id `(kind, ordinal)`, and for that id `name_of` returns `name` and
`display_name_of` returns `display_name`. -/
theorem C4_declaration_round_trip (t : SymbolTable) (name : String) (type : SymType)
    (tex_name : String) (hfresh : t.exists name = false) :
    ∃ ordinal, (t.addSymbol name type tex_name).2.lookup name = some (type, ordinal)
      ∧ (t.addSymbol name type tex_name).2.getNameByID type ordinal = .ok name
      ∧ (t.addSymbol name type tex_name).2.getTeXNameByID type ordinal = .ok tex_name := by
  have hnone := (t.exists_eq_false_iff name).1 hfresh
  refine ⟨t.count type, ?_, ?_, ?_⟩
  · unfold SymbolTable.lookup
    rw [t.addSymbol_fresh_symbol_table name type tex_name hnone, Map.set_same]
  · unfold SymbolTable.getNameByID
    rw [t.addSymbol_fresh_name_table name type tex_name hnone, Map.set_same]
  · unfold SymbolTable.getTeXNameByID
    rw [t.addSymbol_fresh_tex_name_table name type tex_name hnone, Map.set_same]

/-- Witness of C4 on a table that already holds a parameter. -/
theorem C4_declaration_round_trip_witness :
    (run [⟨"alpha", .eParameter, "\\alpha"⟩]).exists "beta" = false
      ∧ ∃ ordinal,
        ((run [⟨"alpha", .eParameter, "\\alpha"⟩]).addSymbol "beta" .eParameter
            "\\beta").2.lookup "beta" = some (.eParameter, ordinal)
        ∧ ((run [⟨"alpha", .eParameter, "\\alpha"⟩]).addSymbol "beta" .eParameter
            "\\beta").2.getNameByID .eParameter ordinal = .ok "beta"
        ∧ ((run [⟨"alpha", .eParameter, "\\alpha"⟩]).addSymbol "beta" .eParameter
            "\\beta").2.getTeXNameByID .eParameter ordinal = .ok "\\beta" :=
  ⟨rfl, C4_declaration_round_trip (run [⟨"alpha", .eParameter, "\\alpha"⟩]) "beta"
    .eParameter "\\beta" rfl⟩

/-- C10: an `addSymbol` that throws (the name is already declared) leaves the
table exactly as it was: the eight counters and the three maps are unchanged. -/
theorem C10_failing_addSymbol_keeps_table (t : SymbolTable) (name : String) (type : SymType)
    (tex_name : String) (hdeclared : t.exists name = true) :
    (∃ flag, (t.addSymbol name type tex_name).1 = .error ⟨name, flag⟩)
      ∧ (t.addSymbol name type tex_name).2 = t := by
  obtain ⟨previous, hprev⟩ := (t.exists_eq_true_iff name).1 hdeclared
  rw [SymbolTable.addSymbol_declared t name type tex_name previous hprev]
  exact ⟨⟨_, rfl⟩, rfl⟩

/-- Witness of C10: redeclaring `"x"` as a parameter with another display name
changes nothing. -/
theorem C10_failing_addSymbol_keeps_table_witness :
    (run [⟨"x", .eEndogenous, "x"⟩]).exists "x" = true
      ∧ ((run [⟨"x", .eEndogenous, "x"⟩]).addSymbol "x" .eParameter "z").2
        = run [⟨"x", .eEndogenous, "x"⟩] :=
  ⟨rfl, (C10_failing_addSymbol_keeps_table (run [⟨"x", .eEndogenous, "x"⟩]) "x"
    .eParameter "z" rfl).2⟩

/-! ## Claims about reachable tables -/

/-- C5: in every table reached from the empty table by `addSymbol` calls
(successful or failing), the forward map `name -> (kind, ordinal)` and the
reverse map `(kind, ordinal) -> name` are inverse to each other, so neither two
names share an id nor two ids a name, and the display-name map has exactly the
keys of the reverse name map. -/
theorem C5_maps_inverse_bijections (calls : List Decl) :
    (∀ n id, (run calls).symbol_table n = some id ↔ (run calls).name_table id = some n)
      ∧ (∀ n n' id, (run calls).symbol_table n = some id
          → (run calls).symbol_table n' = some id → n = n')
      ∧ (∀ id id' n, (run calls).name_table id = some n
          → (run calls).name_table id' = some n → id = id')
      ∧ (∀ id, ((run calls).tex_name_table id).isSome = ((run calls).name_table id).isSome) := by
  obtain ⟨hinv, _, htex⟩ := run_wellFormed calls
  refine ⟨hinv, ?_, ?_, ?_⟩
  · intro n n' id h h'
    have e := ((hinv n id).1 h).symm.trans ((hinv n' id).1 h')
    exact Option.some.inj e
  · intro id id' n h h'
    have e := ((hinv n id).2 h).symm.trans ((hinv n id').2 h')
    exact Option.some.inj e
  · intro id
    have := htex id
    cases h1 : (run calls).tex_name_table id <;> cases h2 : (run calls).name_table id
      <;> simp [h1, h2] at this ⊢

/-- C6: from the empty table, for declarations with pairwise distinct names, the
ordinal of each symbol is the number of earlier declarations of its kind; so
the counter of a kind is the number of its declarations, the ordinals of a kind
are exactly `0, ..., count - 1`, an earlier declaration of a kind has a smaller
ordinal than a later one, and dropping the declarations of the other kinds
changes no ordinal. -/
theorem C6_ordinals_follow_declaration_order (ds : List Decl)
    (hdistinct : (ds.map Decl.name).Nodup) :
    (∀ i d, ds[i]? = some d →
        (run ds).lookup d.name
          = some (d.type, (ds.take i).countP (fun e => decide (e.type = d.type))))
      ∧ (∀ k, (run ds).count k = ds.countP (fun e => decide (e.type = k)))
      ∧ (∀ k j, j < (run ds).count k →
          ∃ d ∈ ds, d.type = k ∧ (run ds).lookup d.name = some (k, j))
      ∧ (∀ d ∈ ds, ∃ j, j < (run ds).count d.type ∧ (run ds).lookup d.name = some (d.type, j))
      ∧ (∀ (i i' : Nat) (d d' : Decl) (k : SymType) (j j' : Nat),
          i < i' → ds[i]? = some d → ds[i']? = some d' →
          (run ds).lookup d.name = some (k, j) → (run ds).lookup d'.name = some (k, j') → j < j')
      ∧ (∀ k d, d ∈ ds → d.type = k →
          (run (ofKind k ds)).lookup d.name = (run ds).lookup d.name) := by
  obtain ⟨_, hcount, _, _, hfwd, _⟩ := run_accepted ds
  rw [accepted_of_nodup ds hdistinct] at hcount hfwd
  have hord : ∀ i d, ds[i]? = some d →
      (run ds).lookup d.name
        = some (d.type, (ds.take i).countP (fun e => decide (e.type = d.type))) := by
    intro i d h
    exact hfwd d.type _ d
      (filter_getElem?_countP_take (fun e => decide (e.type = d.type)) ds i d h (by simp))
  refine ⟨hord, ?_, ?_, ?_, ?_, ?_⟩
  · intro k
    rw [hcount k, List.countP_eq_length_filter]
    rfl
  · intro k j hj
    rw [hcount k] at hj
    have hget : (ofKind k ds)[j]? = some ((ofKind k ds)[j]) := List.getElem?_eq_getElem hj
    have hin : (ofKind k ds)[j] ∈ ofKind k ds := List.getElem_mem hj
    refine ⟨(ofKind k ds)[j], List.mem_of_mem_filter hin, ?_, hfwd k j _ hget⟩
    have := List.of_mem_filter hin
    simpa using this
  · intro d hd
    have hin : d ∈ ofKind d.type ds := List.mem_filter.2 ⟨hd, by simp⟩
    obtain ⟨j, hj⟩ := List.mem_iff_getElem?.1 hin
    refine ⟨j, ?_, hfwd d.type j d hj⟩
    rw [hcount d.type]
    exact (List.getElem?_eq_some.1 hj).1
  · intro i i' d d' k j j' hlt h h' hl hl'
    rw [hord i d h] at hl
    rw [hord i' d' h'] at hl'
    have e := Option.some.inj hl
    have e' := Option.some.inj hl'
    have hk : d.type = k := congrArg Prod.fst e
    have hk' : d'.type = k := congrArg Prod.fst e'
    have hj : (ds.take i).countP (fun e => decide (e.type = d.type)) = j := congrArg Prod.snd e
    have hj' : (ds.take i').countP (fun e => decide (e.type = d'.type)) = j' :=
      congrArg Prod.snd e'
    rw [hk] at hj
    rw [hk'] at hj'
    rw [← hj, ← hj']
    exact countP_take_lt _ ds i i' d hlt h (by simp [hk])
  · intro k d hd hk
    have hsub : ((ofKind k ds).map Decl.name).Nodup :=
      List.Nodup.sublist (List.Sublist.map _ (List.filter_sublist ds)) hdistinct
    obtain ⟨_, _, _, _, hfwd', _⟩ := run_accepted (ofKind k ds)
    rw [accepted_of_nodup _ hsub] at hfwd'
    have hin : d ∈ ofKind k ds := List.mem_filter.2 ⟨hd, by simp [hk]⟩
    obtain ⟨j, hj⟩ := List.mem_iff_getElem?.1 hin
    have hidem : ofKind k (ofKind k ds) = ofKind k ds := by
      unfold ofKind
      rw [List.filter_filter]
      simp
    have h1 := hfwd' k j d (by rw [hidem]; exact hj)
    have h2 := hfwd k j d hj
    unfold SymbolTable.lookup
    rw [h1, h2]

/-- Witness of C6: an exogenous declaration between two endogenous ones. -/
theorem C6_ordinals_follow_declaration_order_witness :
    (([⟨"x", .eEndogenous, "x"⟩, ⟨"e", .eExogenous, "e"⟩, ⟨"y", .eEndogenous, "y"⟩] :
        List Decl).map Decl.name).Nodup
      ∧ (run [⟨"x", .eEndogenous, "x"⟩, ⟨"e", .eExogenous, "e"⟩,
          ⟨"y", .eEndogenous, "y"⟩]).lookup "y" = some (.eEndogenous, 1) :=
  ⟨by decide,
    (C6_ordinals_follow_declaration_order
      [⟨"x", .eEndogenous, "x"⟩, ⟨"e", .eExogenous, "e"⟩, ⟨"y", .eEndogenous, "y"⟩]
      (by decide)).1 2 ⟨"y", .eEndogenous, "y"⟩ rfl⟩

/-- C7: a successful `addSymbol` of a new name on a reachable table leaves every
previously declared symbol unchanged: its `(kind, ordinal)`, its `name_of` and
its `display_name_of` are the same after the call as before it. -/
theorem C7_addSymbol_frame (calls : List Decl) (name : String) (type : SymType)
    (tex_name : String) (hfresh : (run calls).exists name = false) :
    ∀ n kind ordinal, (run calls).lookup n = some (kind, ordinal) →
      ((run calls).addSymbol name type tex_name).2.lookup n = some (kind, ordinal)
        ∧ ((run calls).addSymbol name type tex_name).2.getNameByID kind ordinal
            = (run calls).getNameByID kind ordinal
        ∧ ((run calls).addSymbol name type tex_name).2.getTeXNameByID kind ordinal
            = (run calls).getTeXNameByID kind ordinal
        ∧ (run calls).getNameByID kind ordinal = .ok n := by
  intro n kind ordinal hn
  have hnone := ((run calls).exists_eq_false_iff name).1 hfresh
  obtain ⟨hinv, hbound, _⟩ := run_wellFormed calls
  unfold SymbolTable.lookup at hn
  have hrev := (hinv n (kind, ordinal)).1 hn
  have hlt : ordinal < (run calls).count kind := (hbound kind ordinal).1 ⟨n, hrev⟩
  have hid : (kind, ordinal) ≠ (type, (run calls).count type) := by
    intro h
    have hk : kind = type := congrArg Prod.fst h
    have ho : ordinal = (run calls).count type := congrArg Prod.snd h
    rw [hk] at hlt
    omega
  have hne : n ≠ name := by
    intro h
    rw [h, hnone] at hn
    cases hn
  refine ⟨?_, ?_, ?_, ?_⟩
  · unfold SymbolTable.lookup
    rw [SymbolTable.addSymbol_fresh_symbol_table _ _ _ _ hnone, Map.set_other _ _ _ _ hne]
    exact hn
  · unfold SymbolTable.getNameByID
    rw [SymbolTable.addSymbol_fresh_name_table _ _ _ _ hnone, Map.set_other _ _ _ _ hid]
  · unfold SymbolTable.getTeXNameByID
    rw [SymbolTable.addSymbol_fresh_tex_name_table _ _ _ _ hnone, Map.set_other _ _ _ _ hid]
  · unfold SymbolTable.getNameByID
    rw [hrev]

/-- Witness of C7: declaring `"y"` after `"x"` keeps the entry of `"x"`. -/
theorem C7_addSymbol_frame_witness :
    (run [⟨"x", .eEndogenous, "\\xi"⟩]).exists "y" = false
      ∧ ((run [⟨"x", .eEndogenous, "\\xi"⟩]).addSymbol "y" .eEndogenous "y").2.lookup "x"
          = some (.eEndogenous, 0)
      ∧ ((run [⟨"x", .eEndogenous, "\\xi"⟩]).addSymbol "y" .eEndogenous
          "y").2.getTeXNameByID .eEndogenous 0
          = (run [⟨"x", .eEndogenous, "\\xi"⟩]).getTeXNameByID .eEndogenous 0 :=
  ⟨rfl,
    (C7_addSymbol_frame [⟨"x", .eEndogenous, "\\xi"⟩] "y" .eEndogenous "y" rfl
      "x" .eEndogenous 0 rfl).1,
    (C7_addSymbol_frame [⟨"x", .eEndogenous, "\\xi"⟩] "y" .eEndogenous "y" rfl
      "x" .eEndogenous 0 rfl).2.2.1⟩

/-! ## Claims about `writeOutput` -/

/-- C8: on every table reached by declarations, `writeOutput` completes and
writes for each announced kind (Exogenous, ExogenousDeterministic, Endogenous,
RecursiveVariable, Parameter) the block `announce` of the declaration-order
sequence of that kind: the first symbol as the initial assignment, each later
one appended by `strvcat`. The `j`-th symbol of that sequence is the one with
ordinal `j`, and the sequence has `count(kind)` symbols, so the names and
display names are written in ascending ordinal order, each ordinal once. -/
theorem C8_writeOutput_declaration_order (calls : List Decl)
    (strvcat : String → String → String) (output : List String) :
    (run calls).writeOutput strvcat output
        = .ok (output
          ++ announce strvcat "M_.exo_names" "M_.exo_names_tex"
              (ofKind .eExogenous (accepted calls))
          ++ announce strvcat "lgxdet_" "lgxdet_tex_"
              (ofKind .eExogenousDet (accepted calls))
          ++ announce strvcat "M_.endo_names" "M_.endo_names_tex"
              (ofKind .eEndogenous (accepted calls))
          ++ announce strvcat "M_.recur_names" "M_.recur_names_tex"
              (ofKind .eRecursiveVariable (accepted calls))
          ++ announce strvcat "M_.param_names" "M_.param_names_tex"
              (ofKind .eParameter (accepted calls))
          ++ (run calls).countLines)
      ∧ (∀ kind, (ofKind kind (accepted calls)).length = (run calls).count kind)
      ∧ (∀ kind j d, (ofKind kind (accepted calls))[j]? = some d ↔
          ((run calls).lookup d.name = some (kind, j)
            ∧ (run calls).getTeXNameByID kind j = .ok d.tex_name
            ∧ d.type = kind)) := by
  obtain ⟨_, hcount, hname, htex, hfwd, _⟩ := run_accepted calls
  obtain ⟨hinv, _, _⟩ := run_wellFormed calls
  refine ⟨writeOutput_run calls strvcat output, fun kind => (hcount kind).symm, ?_⟩
  intro kind j d
  constructor
  · intro h
    refine ⟨hfwd kind j d h, ?_, ?_⟩
    · unfold SymbolTable.getTeXNameByID
      rw [htex kind j, h]
      rfl
    · have hin : d ∈ ofKind kind (accepted calls) := List.mem_iff_getElem?.2 ⟨j, h⟩
      have := List.of_mem_filter hin
      simpa using this
  · rintro ⟨hl, ht, hk⟩
    unfold SymbolTable.lookup at hl
    have hrev := (hinv _ _).1 hl
    rw [hname kind j] at hrev
    unfold SymbolTable.getTeXNameByID at ht
    rw [htex kind j] at ht
    cases hget : (ofKind kind (accepted calls))[j]? with
    | none =>
        rw [hget] at hrev
        cases hrev
    | some e =>
        rw [hget] at hrev ht
        have h1 : e.name = d.name := by simpa using hrev
        have h2 : e.tex_name = d.tex_name := by
          have : (Except.ok e.tex_name : Except UnknownSymbolIDException String)
              = .ok d.tex_name := ht
          exact Except.ok.inj this
        have hin : e ∈ ofKind kind (accepted calls) := List.mem_iff_getElem?.2 ⟨j, hget⟩
        have h3 : e.type = kind := by
          have := List.of_mem_filter hin
          simpa using this
        have : e = d := by
          cases e
          cases d
          simp at h1 h2 h3 hk
          simp [h1, h2, h3, hk]
        rw [this]

/-- C9, as stated, fails: a model-local variable `q`, a file-local variable `w`
and an unknown function `j` are declared, yet `writeOutput` writes only the
five counts of the other kinds and the `Sigma_e` line; none of the three names
occurs in the output and no count of their kinds is written. -/
theorem C9_local_kinds_not_written :
    (run [⟨"q", .eModelLocalVariable, "q"⟩, ⟨"w", .eModFileLocalVariable, "w"⟩,
        ⟨"j", .eUnknownFunction, "j"⟩]).lookup "q" = some (.eModelLocalVariable, 0)
      ∧ (run [⟨"q", .eModelLocalVariable, "q"⟩, ⟨"w", .eModFileLocalVariable, "w"⟩,
        ⟨"j", .eUnknownFunction, "j"⟩]).lookup "w" = some (.eModFileLocalVariable, 0)
      ∧ (run [⟨"q", .eModelLocalVariable, "q"⟩, ⟨"w", .eModFileLocalVariable, "w"⟩,
        ⟨"j", .eUnknownFunction, "j"⟩]).lookup "j" = some (.eUnknownFunction, 0)
      ∧ ∃ lines,
        (run [⟨"q", .eModelLocalVariable, "q"⟩, ⟨"w", .eModFileLocalVariable, "w"⟩,
          ⟨"j", .eUnknownFunction, "j"⟩]).writeOutput strvcatSample [] = .ok lines
        ∧ lines = ["M_.exo_det_nbr = 0;", "M_.exo_nbr = 0;", "M_.endo_nbr = 0;",
            "M_.recur_nbr = 0;", "M_.param_nbr = 0;", "M_.Sigma_e = zeros(0, 0);"]
        ∧ ¬ mentions lines "q" ∧ ¬ mentions lines "w" ∧ ¬ mentions lines "j" := by
  refine ⟨rfl, rfl, rfl, _, rfl, rfl, ?_, ?_, ?_⟩ <;> unfold mentions <;> decide

/-- C9, amended: for each of the five kinds that `writeOutput` announces
(Exogenous, ExogenousDeterministic, Endogenous, RecursiveVariable, Parameter),
on every reachable table every declared name of that kind and its display name
are written, as the line of their ordinal in the variables of the kind, and the
count of the kind is written. -/
theorem C9_announced_kinds_listed (calls : List Decl) (strvcat : String → String → String)
    (output : List String) (name : String) (kind : SymType) (ordinal : Nat)
    (var var_tex var_nbr : String)
    (hdeclared : (run calls).lookup name = some (kind, ordinal))
    (hkind : announced kind = some (var, var_tex, var_nbr)) :
    ∃ lines tex, (run calls).writeOutput strvcat output = .ok lines
      ∧ (run calls).getTeXNameByID kind ordinal = .ok tex
      ∧ entryLine strvcat var ordinal name ∈ lines
      ∧ entryLine strvcat var_tex ordinal tex ∈ lines
      ∧ (var_nbr ++ " = " ++ toString ((run calls).count kind) ++ ";") ∈ lines := by
  obtain ⟨_, _, hname, htex, _, _⟩ := run_accepted calls
  obtain ⟨hinv, _, _⟩ := run_wellFormed calls
  unfold SymbolTable.lookup at hdeclared
  have hrev := (hinv _ _).1 hdeclared
  rw [hname kind ordinal] at hrev
  cases hget : (ofKind kind (accepted calls))[ordinal]? with
  | none =>
      rw [hget] at hrev
      cases hrev
  | some d =>
      rw [hget] at hrev
      have hd : d.name = name := by simpa using hrev
      obtain ⟨m1, m2⟩ := announce_mem strvcat var var_tex _ ordinal d hget
      rw [hd] at m1
      refine ⟨_, d.tex_name, writeOutput_run calls strvcat output, ?_, ?_, ?_, ?_⟩
      · unfold SymbolTable.getTeXNameByID
        rw [htex kind ordinal, hget]
        rfl
      · cases kind <;> simp [announced] at hkind <;> obtain ⟨rfl, rfl, rfl⟩ := hkind
          <;> simp only [List.mem_append] <;> tauto
      · cases kind <;> simp [announced] at hkind <;> obtain ⟨rfl, rfl, rfl⟩ := hkind
          <;> simp only [List.mem_append] <;> tauto
      · cases kind <;> simp [announced] at hkind <;> obtain ⟨rfl, rfl, rfl⟩ := hkind
          <;> simp [SymbolTable.countLines, SymbolTable.count]

/-- Witness of C9 (amended): the second endogenous variable `y` is appended to
`M_.endo_names` through `strvcat`, and `M_.endo_nbr = 2;` is written. -/
theorem C9_announced_kinds_listed_witness :
    (run [⟨"x", .eEndogenous, "x"⟩, ⟨"y", .eEndogenous, "\\psi"⟩]).lookup "y"
        = some (.eEndogenous, 1)
      ∧ announced .eEndogenous = some ("M_.endo_names", "M_.endo_names_tex", "M_.endo_nbr")
      ∧ ∃ lines tex,
        (run [⟨"x", .eEndogenous, "x"⟩, ⟨"y", .eEndogenous, "\\psi"⟩]).writeOutput
            strvcatSample [] = .ok lines
        ∧ (run [⟨"x", .eEndogenous, "x"⟩, ⟨"y", .eEndogenous, "\\psi"⟩]).getTeXNameByID
            .eEndogenous 1 = .ok tex
        ∧ entryLine strvcatSample "M_.endo_names" 1 "y" ∈ lines
        ∧ entryLine strvcatSample "M_.endo_names_tex" 1 tex ∈ lines
        ∧ ("M_.endo_nbr" ++ " = "
            ++ toString ((run [⟨"x", .eEndogenous, "x"⟩,
                ⟨"y", .eEndogenous, "\\psi"⟩]).count .eEndogenous) ++ ";") ∈ lines :=
  ⟨rfl, rfl,
    C9_announced_kinds_listed [⟨"x", .eEndogenous, "x"⟩, ⟨"y", .eEndogenous, "\\psi"⟩]
      strvcatSample [] "y" .eEndogenous 1 "M_.endo_names" "M_.endo_names_tex" "M_.endo_nbr"
      rfl rfl⟩

/-- C11: on every table reached from the empty table by `addSymbol` calls,
`writeOutput` does not throw `UnknownSymbol`: it completes, because every
`(kind, id)` with `id` below `count(kind)` was issued by the table, to some
declared name, and both reverse lookups succeed on it. -/
theorem C11_writeOutput_never_unknown_symbol (calls : List Decl)
    (strvcat : String → String → String) (output : List String) :
    (∀ e, (run calls).writeOutput strvcat output ≠ .error e)
      ∧ (∃ lines, (run calls).writeOutput strvcat output = .ok lines)
      ∧ (∀ kind id, id < (run calls).count kind →
          ∃ name tex, (run calls).lookup name = some (kind, id)
            ∧ (run calls).getNameByID kind id = .ok name
            ∧ (run calls).getTeXNameByID kind id = .ok tex) := by
  obtain ⟨hinv, hbound, htex⟩ := run_wellFormed calls
  refine ⟨?_, ⟨_, writeOutput_run calls strvcat output⟩, ?_⟩
  · intro e h
    rw [writeOutput_run calls strvcat output] at h
    cases h
  · intro kind id hlt
    obtain ⟨name, hname⟩ := (hbound kind id).2 hlt
    obtain ⟨tex, hx⟩ := (htex (kind, id)).2 ⟨name, hname⟩
    refine ⟨name, tex, (hinv name (kind, id)).2 hname, ?_, ?_⟩
    · unfold SymbolTable.getNameByID
      rw [hname]
    · unfold SymbolTable.getTeXNameByID
      rw [hx]

/-- C12: on every reachable table `writeOutput` completes and ends with the
five count lines and the `Sigma_e` line, whatever the counts are (zero
included). Each count line shows `count(kind)`, which is the number of symbols
in the name block written for the kind in the same output (one name line and
one display-name line per symbol, no line at all when the count is zero), and
the `Sigma_e` line is `zeros(n, n)` with `n = count(Exogenous)`. -/
theorem C12_count_lines_match_names (calls : List Decl)
    (strvcat : String → String → String) (output : List String) :
    (run calls).writeOutput strvcat output
        = .ok (output
          ++ announce strvcat "M_.exo_names" "M_.exo_names_tex"
              (ofKind .eExogenous (accepted calls))
          ++ announce strvcat "lgxdet_" "lgxdet_tex_"
              (ofKind .eExogenousDet (accepted calls))
          ++ announce strvcat "M_.endo_names" "M_.endo_names_tex"
              (ofKind .eEndogenous (accepted calls))
          ++ announce strvcat "M_.recur_names" "M_.recur_names_tex"
              (ofKind .eRecursiveVariable (accepted calls))
          ++ announce strvcat "M_.param_names" "M_.param_names_tex"
              (ofKind .eParameter (accepted calls))
          ++ [ "M_.exo_det_nbr = " ++ toString ((run calls).count .eExogenousDet) ++ ";",
               "M_.exo_nbr = " ++ toString ((run calls).count .eExogenous) ++ ";",
               "M_.endo_nbr = " ++ toString ((run calls).count .eEndogenous) ++ ";",
               "M_.recur_nbr = " ++ toString ((run calls).count .eRecursiveVariable) ++ ";",
               "M_.param_nbr = " ++ toString ((run calls).count .eParameter) ++ ";",
               "M_.Sigma_e = zeros(" ++ toString ((run calls).count .eExogenous) ++ ", "
                 ++ toString ((run calls).count .eExogenous) ++ ");" ])
      ∧ (∀ kind, (ofKind kind (accepted calls)).length = (run calls).count kind)
      ∧ (∀ kind var var_tex,
          (announce strvcat var var_tex (ofKind kind (accepted calls))).length
            = 2 * (run calls).count kind)
      ∧ (∀ kind var var_tex, (run calls).count kind = 0 →
          announce strvcat var var_tex (ofKind kind (accepted calls)) = []) := by
  obtain ⟨_, hcount, _, _, _, _⟩ := run_accepted calls
  refine ⟨writeOutput_run calls strvcat output, fun kind => (hcount kind).symm, ?_, ?_⟩
  · intro kind var var_tex
    rw [announce_length, hcount kind]
  · intro kind var var_tex h0
    rw [hcount kind] at h0
    rw [List.length_eq_zero.1 h0]
    rfl

end Dynare
